import Mathlib

/-!
Shallow embedding of `satgenpy/satgen/dynamic_state/algorithm_free_one_only_over_isls.py`
(function `algorithm_free_one_only_over_isls`).

Modelling choices:
* Python floats (distances in metres) are modelled as rationals `ℚ`.
* `+inf` distances are modelled by `Option ℚ` (`none` = infinity), called `QDist`.
* The networkx graph is modelled by its node count together with its weighted
  undirected edge list; nodes are canonically `0 .. numNodes-1` in insertion
  order (this is how the callers of the algorithm construct the graph) and the
  graph is simple (no duplicate edges).
* `nx.floyd_warshall_numpy` is modelled by the textbook dynamic program over
  intermediate nodes, with the diagonal forced to `0`, exactly as networkx does.
* Python dicts keyed by node-id pairs are modelled as association lists in
  insertion order; a dict lookup is `flookup`, and a missing key is a
  `keyError` result.
* File output is abstracted into the returned list of emitted forwarding-state
  lines (`emitted`); the interface-bandwidth file is not modelled because it is
  written after graph validation and before any forwarding computation, and no
  forwarding entry depends on it.  On an error the function returns `.error`
  and no output record is modelled.
* Exceptions (`ValueError` for the topology checks, `KeyError` for a missing
  previous-state key) are modelled by `Except AlgError`.
-/

/-- Extended distance: `none` is `+inf`, `some q` a finite distance. -/
abbrev QDist := Option ℚ

/-- Addition on extended distances (`inf + x = inf`). -/
def eAdd : QDist → QDist → QDist
  | some a, some b => some (a + b)
  | _, _ => none

/-- Minimum of two rationals, computed with the kernel-reducible `Rat.blt`. -/
def qmin (a b : ℚ) : ℚ := if Rat.blt b a then b else a

/-- Minimum of two extended distances (`none` is the top element). -/
def eMin : QDist → QDist → QDist
  | some a, some b => some (qmin a b)
  | some a, none => some a
  | none, d => d

/-- Strict comparison of extended distances, as Python float comparison
behaves (`inf < inf` is false, `x < inf` is true for finite `x`). -/
def eLt : QDist → QDist → Bool
  | some a, some b => Rat.blt a b
  | some _, none => true
  | none, _ => false

/-- Minimum of a list of extended distances (`none` for the empty list). -/
def eMinList (l : List QDist) : QDist := l.foldr eMin none

/-- Minimum of a list of rationals as an extended distance. -/
def minQ (l : List ℚ) : QDist := l.foldr (fun q d => eMin (some q) d) none

/-- The backbone graph: node count plus weighted undirected edge list.
Nodes are `0 .. numNodes - 1`; the edge list is duplicate free. -/
structure Graph where
  numNodes : ℕ
  edges : List (ℕ × ℕ × ℚ)

/-- Neighbors of a node, in edge-insertion order (networkx adjacency). -/
def Graph.neighbors (g : Graph) (v : ℕ) : List ℕ :=
  g.edges.filterMap fun e =>
    if e.1 = v then some e.2.1 else if e.2.1 = v then some e.1 else none

/-- Weights of the edges joining `i` and `j` (at most one for a simple graph). -/
def Graph.edgeWeights (g : Graph) (i j : ℕ) : List ℚ :=
  g.edges.filterMap fun e =>
    if (e.1 = i ∧ e.2.1 = j) ∨ (e.1 = j ∧ e.2.1 = i) then some e.2.2 else none

/-- Initial distance matrix: `0` on the diagonal (as `floyd_warshall_numpy`
fills it), the edge weight for adjacent pairs, `+inf` otherwise. -/
def Graph.dist0 (g : Graph) (i j : ℕ) : QDist :=
  if i = j then some 0 else minQ (g.edgeWeights i j)

/-- One Floyd-Warshall relaxation round with intermediate node `k`. -/
def fwStep (d : ℕ → ℕ → QDist) (k : ℕ) : ℕ → ℕ → QDist :=
  fun i j => eMin (d i j) (eAdd (d i k) (d k j))

/-- Floyd-Warshall relaxation over intermediate nodes `0 .. k-1`. -/
def fwIter (d : ℕ → ℕ → QDist) : ℕ → (ℕ → ℕ → QDist)
  | 0 => d
  | k + 1 => fwStep (fwIter d k) k

/-- All-pairs shortest-path distances of the backbone graph
(`dist_sat_net_without_gs = nx.floyd_warshall_numpy(sat_net_graph_without_gs)`). -/
def Graph.dist (g : Graph) : ℕ → ℕ → QDist := fwIter g.dist0 g.numNodes

/-- A forwarding entry: next hop, egress interface, ingress interface. -/
abbrev Entry := ℤ × ℤ × ℤ

/-- The drop sentinel `(-1, -1, -1)`. -/
def dropEntry : Entry := (-1, -1, -1)

/-- A forwarding state: the dict `fstate` as an association list keyed by
(source node id, destination node id), in insertion order. -/
abbrev FState := List ((ℕ × ℕ) × Entry)

/-- Dict lookup on an association list. -/
def flookup : FState → (ℕ × ℕ) → Option Entry
  | [], _ => none
  | (k, v) :: rest, key => if k = key then some v else flookup rest key

/-- The inputs of `algorithm_free_one_only_over_isls` that the forwarding
computation reads.  `groundStationSatellitesInRange g` is the visibility list
of ground station `g`: pairs (access distance, satellite id).  `numIslsPerSat`
and `satNeighborToIf` are total index maps, as the callers guarantee. -/
structure Input where
  numSats : ℕ
  numGroundStations : ℕ
  satNetGraphWithoutGs : Graph
  groundStationSatellitesInRange : ℕ → List (ℚ × ℕ)
  numIslsPerSat : ℕ → ℤ
  satNeighborToIf : ℕ → ℕ → ℤ
  prevOutput : Option FState

/-- Errors raised by the algorithm: the two topology `ValueError` checks, and
a `KeyError` on a previous-state lookup. -/
inductive AlgError where
  | topologyError : AlgError
  | keyError : (ℕ × ℕ) → AlgError
deriving DecidableEq

/-- Comparison used by the Python `sorted` on `(cost, satellite id)` tuples:
lexicographic order. -/
def pairLe (a b : ℚ × ℕ) : Bool :=
  Rat.blt a.1 b.1 || (decide (a.1 = b.1) && decide (a.2 ≤ b.2))

/-- Stable insertion into a sorted list, for `sortPairs`. -/
def insertPair (x : ℚ × ℕ) : List (ℚ × ℕ) → List (ℚ × ℕ)
  | [] => [x]
  | y :: ys => if pairLe x y then x :: y :: ys else y :: insertPair x ys

/-- The Python `sorted(possibilities)`: stable sort by lexicographic order on
`(cost, satellite id)`. -/
def sortPairs : List (ℚ × ℕ) → List (ℚ × ℕ)
  | [] => []
  | x :: xs => insertPair x (sortPairs xs)

/-- Stage-1 candidate list for satellite `curr` and ground station `dst_gs`:
for every visible satellite at finite backbone distance, the pair
(backbone distance + access distance, satellite id), in visibility-list order
(source lines 127-135). -/
def satToGsPossibilities (inp : Input) (curr dst_gs : ℕ) : List (ℚ × ℕ) :=
  (inp.groundStationSatellitesInRange dst_gs).filterMap fun b =>
    match inp.satNetGraphWithoutGs.dist curr b.2 with
    | none => none
    | some d => some (d + b.1, b.2)

/-- The candidate selected in stage 1: head of the sorted candidate list
(source lines 136-144). -/
def selectedCandidate (inp : Input) (curr dst_gs : ℕ) : Option (ℚ × ℕ) :=
  (sortPairs (satToGsPossibilities inp curr dst_gs)).head?

/-- The initial `best_dist = 1000000000000000` of the neighbor loop. -/
def bigDist : ℚ := 1000000000000000

/-- The sum `dist[curr][n] + dist[n][dst_sat]` minimized by the neighbor loop. -/
def neighborSum (inp : Input) (curr dst_sat n : ℕ) : QDist :=
  eAdd (inp.satNetGraphWithoutGs.dist curr n) (inp.satNetGraphWithoutGs.dist n dst_sat)

/-- The entry produced for neighbor `n` when it improves on the best sum. -/
def neighborEntry (inp : Input) (curr n : ℕ) : Entry :=
  ((n : ℤ), inp.satNeighborToIf curr n, inp.satNeighborToIf n curr)

/-- The neighbor loop of source lines 149-155: scan the neighbors of `curr`,
keeping the first one that strictly improves the running best sum. -/
def neighborHopState (inp : Input) (curr dst_sat : ℕ) : QDist × Entry :=
  (inp.satNetGraphWithoutGs.neighbors curr).foldl
    (fun st n =>
      if eLt (neighborSum inp curr dst_sat n) st.1 then
        (neighborSum inp curr dst_sat n, neighborEntry inp curr n)
      else st)
    (some bigDist, dropEntry)

/-- The satellite-to-ground-station decision (source lines 126-160): the
cached distance from `curr` to the ground station, and the forwarding entry. -/
def satToGsDecision (inp : Input) (curr dst_gs : ℕ) : QDist × Entry :=
  match selectedCandidate inp curr dst_gs with
  | none => (none, dropEntry)
  | some (c, dst_sat) =>
    (some c,
      if curr = dst_sat then
        (((inp.numSats + dst_gs : ℕ) : ℤ), inp.numIslsPerSat dst_sat, 0)
      else
        (neighborHopState inp curr dst_sat).2)

/-- The dict `dist_satellite_to_ground_station` at key
`(curr, numSats + dst_gs)` (source line 162). -/
def dist_satellite_to_ground_station (inp : Input) (curr dst_gs : ℕ) : QDist :=
  (satToGsDecision inp curr dst_gs).1

/-- Stage-2 candidate list for ground stations `src_gid` to `dst_gid`
(source lines 177-188): visible source satellites whose cached distance to the
destination ground station is finite, with total cost. -/
def gsToGsPossibilities (inp : Input) (src_gid dst_gid : ℕ) : List (ℚ × ℕ) :=
  (inp.groundStationSatellitesInRange src_gid).filterMap fun a =>
    match dist_satellite_to_ground_station inp a.2 dst_gid with
    | none => none
    | some d => some (a.1 + d, a.2)

/-- The ground-station-to-ground-station decision (source lines 177-195). -/
def gsToGsDecision (inp : Input) (src_gid dst_gid : ℕ) : Entry :=
  match (sortPairs (gsToGsPossibilities inp src_gid dst_gid)).head? with
  | none => dropEntry
  | some (_, src_sat) => ((src_sat : ℤ), 0, inp.numIslsPerSat src_sat)

/-- All satellite-to-ground-station pairs with their computed entries, in the
loop order of source lines 121-167. -/
def satGsPairs (inp : Input) : FState :=
  (List.range inp.numSats).flatMap fun curr =>
    (List.range inp.numGroundStations).map fun dst_gs =>
      ((curr, inp.numSats + dst_gs), (satToGsDecision inp curr dst_gs).2)

/-- All ordered pairs of distinct ground stations with their computed entries,
in the loop order of source lines 171-202. -/
def gsGsPairs (inp : Input) : FState :=
  (List.range inp.numGroundStations).flatMap fun src_gid =>
    ((List.range inp.numGroundStations).filter fun dst_gid => src_gid != dst_gid).map
      fun dst_gid =>
        ((inp.numSats + src_gid, inp.numSats + dst_gid), gsToGsDecision inp src_gid dst_gid)

/-- Every computed (source, destination) pair with its entry, in computation
order: stage 1 then stage 2. -/
def computedPairs (inp : Input) : FState := satGsPairs inp ++ gsGsPairs inp

/-- The emission test of source lines 163 and 198:
`if not prev_fstate or prev_fstate[(src, dst)] != next_hop_decision`.
A falsy previous state (absent or empty) always emits; otherwise the previous
value at the key is compared, and a missing key raises `KeyError`. -/
def emitDecision (prev : Option FState) (key : ℕ × ℕ) (v : Entry) :
    Except AlgError Bool :=
  match prev with
  | none => .ok true
  | some p =>
    if p = [] then .ok true
    else
      match flookup p key with
      | none => .error (.keyError key)
      | some v2 => .ok (decide (v2 ≠ v))

/-- Run the emission test over all computed pairs in order, collecting the
emitted lines; the first missing previous key aborts the computation. -/
def emitList (prev : Option FState) : FState → Except AlgError FState
  | [] => .ok []
  | (k, v) :: rest =>
    match emitDecision prev k v with
    | .error e => .error e
    | .ok b =>
      match emitList prev rest with
      | .error e => .error e
      | .ok tail => .ok (if b then (k, v) :: tail else tail)

/-- The per-epoch result: the full forwarding table (the returned `fstate`
dict, as an association list in insertion order) and the emitted changed
lines, in file order. -/
structure EpochOutput where
  fstate : FState
  emitted : FState
deriving DecidableEq

/-- The epoch computation of `algorithm_free_one_only_over_isls`: the two
topology checks of source lines 70-75, then the forwarding-state computation
and diffing of source lines 99-209. -/
def algorithm_free_one_only_over_isls (inp : Input) : Except AlgError EpochOutput :=
  if inp.satNetGraphWithoutGs.numNodes ≠ inp.numSats then
    .error .topologyError
  else if (List.range inp.numSats).any (fun sid =>
      (inp.satNetGraphWithoutGs.neighbors sid).any fun n => decide (inp.numSats ≤ n)) then
    .error .topologyError
  else
    match emitList inp.prevOutput (computedPairs inp) with
    | .error e => .error e
    | .ok em => .ok ⟨computedPairs inp, em⟩

/-- Replace the previous-output field of an input. -/
def setPrev (inp : Input) (p : Option FState) : Input :=
  ⟨inp.numSats, inp.numGroundStations, inp.satNetGraphWithoutGs,
   inp.groundStationSatellitesInRange, inp.numIslsPerSat, inp.satNeighborToIf, p⟩

/-! ### Order facts for the executable comparisons -/

theorem blt_eq_lt (a b : ℚ) : (Rat.blt a b = true) = (a < b) := rfl

theorem blt_eq_false_iff (a b : ℚ) : Rat.blt a b = false ↔ b ≤ a := by
  constructor
  · intro h
    exact le_of_not_lt fun hc => by rw [← blt_eq_lt] at hc; rw [h] at hc; cases hc
  · intro h
    cases hb : Rat.blt a b with
    | false => rfl
    | true => exact absurd (by rw [← blt_eq_lt]; exact hb) (not_lt_of_le h)

theorem qmin_eq_min (a b : ℚ) : qmin a b = min a b := by
  unfold qmin
  rcases hb : Rat.blt b a with _ | _
  · have hab : a ≤ b := (blt_eq_false_iff b a).mp hb
    simp [min_def, hab]
  · have hba : b < a := by rw [← blt_eq_lt]; exact hb
    have : ¬ a ≤ b := not_le_of_lt hba
    simp [min_def, this]

theorem eLt_ss_true {a b : ℚ} : eLt (some a) (some b) = true ↔ a < b := Iff.rfl

theorem eLt_ss_false {a b : ℚ} : eLt (some a) (some b) = false ↔ b ≤ a :=
  blt_eq_false_iff a b

theorem eLt_none_left (y : QDist) : eLt none y = false := rfl

theorem eLt_some_none (a : ℚ) : eLt (some a) none = true := rfl

theorem eLt_irrefl (x : QDist) : eLt x x = false := by
  cases x with
  | none => rfl
  | some a => exact eLt_ss_false.mpr (le_refl a)

theorem eLt_trans : ∀ {x y z : QDist}, eLt x y = true → eLt y z = true → eLt x z = true
  | some a, some b, some c, h1, h2 =>
    eLt_ss_true.mpr (lt_trans (eLt_ss_true.mp h1) (eLt_ss_true.mp h2))
  | some _, some _, none, _, _ => rfl
  | some _, none, _, _, h2 => Bool.noConfusion h2
  | none, _, _, h1, _ => Bool.noConfusion h1

theorem eLt_asymm : ∀ {x y : QDist}, eLt x y = true → eLt y x = false
  | some a, some b, h => eLt_ss_false.mpr (le_of_lt (eLt_ss_true.mp h))
  | some _, none, _ => rfl
  | none, _, h => Bool.noConfusion h

theorem eLt_true_of_true_false :
    ∀ {y x b : QDist}, eLt y b = true → eLt x b = false → eLt y x = true
  | some a, none, some _, _, _ => rfl
  | some a, some d, some c, h1, h2 =>
    eLt_ss_true.mpr (lt_of_lt_of_le (eLt_ss_true.mp h1) (eLt_ss_false.mp h2))
  | some a, none, none, _, _ => rfl
  | some a, some _, none, _, h2 => Bool.noConfusion h2
  | none, _, _, h1, _ => Bool.noConfusion h1

theorem eLt_false_of_true_false {y x b : QDist}
    (h1 : eLt y b = true) (h2 : eLt x b = false) : eLt x y = false :=
  eLt_asymm (eLt_true_of_true_false h1 h2)

/-! ### Facts about the lexicographic pair order and the sort -/

theorem pairLe_iff {a b : ℚ × ℕ} :
    pairLe a b = true ↔ (a.1 < b.1 ∨ (a.1 = b.1 ∧ a.2 ≤ b.2)) := by
  unfold pairLe
  simp only [Bool.or_eq_true, Bool.and_eq_true, decide_eq_true_eq, blt_eq_lt]

theorem pairLe_refl (a : ℚ × ℕ) : pairLe a a = true :=
  pairLe_iff.mpr (Or.inr ⟨rfl, le_refl _⟩)

theorem pairLe_trans {a b c : ℚ × ℕ}
    (h1 : pairLe a b = true) (h2 : pairLe b c = true) : pairLe a c = true := by
  rcases pairLe_iff.mp h1 with h1 | ⟨h1e, h1n⟩ <;> rcases pairLe_iff.mp h2 with h2 | ⟨h2e, h2n⟩
  · exact pairLe_iff.mpr (Or.inl (lt_trans h1 h2))
  · exact pairLe_iff.mpr (Or.inl (h2e ▸ h1))
  · exact pairLe_iff.mpr (Or.inl (h1e ▸ h2))
  · exact pairLe_iff.mpr (Or.inr ⟨h1e.trans h2e, le_trans h1n h2n⟩)

theorem pairLe_total (a b : ℚ × ℕ) : pairLe a b = true ∨ pairLe b a = true := by
  rcases lt_trichotomy a.1 b.1 with h | h | h
  · exact Or.inl (pairLe_iff.mpr (Or.inl h))
  · rcases Nat.le_total a.2 b.2 with hn | hn
    · exact Or.inl (pairLe_iff.mpr (Or.inr ⟨h, hn⟩))
    · exact Or.inr (pairLe_iff.mpr (Or.inr ⟨h.symm, hn⟩))
  · exact Or.inr (pairLe_iff.mpr (Or.inl h))

theorem pairLe_cost_le {a b : ℚ × ℕ} (h : pairLe a b = true) : a.1 ≤ b.1 := by
  rcases pairLe_iff.mp h with h | ⟨he, _⟩
  · exact le_of_lt h
  · exact le_of_eq he

theorem mem_insertPair {x y : ℚ × ℕ} :
    ∀ {l : List (ℚ × ℕ)}, y ∈ insertPair x l ↔ y = x ∨ y ∈ l := by
  intro l
  induction l with
  | nil => simp [insertPair]
  | cons z zs ih =>
    unfold insertPair
    rcases h : pairLe x z with _ | _
    · rw [if_neg (by simp [h])]
      simp only [List.mem_cons, ih]
      tauto
    · rw [if_pos (by simp [h])]
      simp only [List.mem_cons]

theorem insertPair_ne_nil (x : ℚ × ℕ) : ∀ (l : List (ℚ × ℕ)), insertPair x l ≠ []
  | [] => by simp [insertPair]
  | z :: zs => by
    unfold insertPair
    rcases h : pairLe x z with _ | _ <;> simp

theorem mem_sortPairs {y : ℚ × ℕ} :
    ∀ {l : List (ℚ × ℕ)}, y ∈ sortPairs l ↔ y ∈ l := by
  intro l
  induction l with
  | nil => simp [sortPairs]
  | cons z zs ih => simp [sortPairs, mem_insertPair, ih]

theorem sortPairs_min :
    ∀ (l : List (ℚ × ℕ)),
      (sortPairs l = [] ∧ l = []) ∨
      (∃ x rest, sortPairs l = x :: rest ∧ x ∈ l ∧ ∀ y ∈ l, pairLe x y = true)
  | [] => Or.inl ⟨rfl, rfl⟩
  | a :: as => by
    rcases sortPairs_min as with ⟨hs, hnil⟩ | ⟨b, bs, hs, hmem, hmin⟩
    · subst hnil
      refine Or.inr ⟨a, [], ?_, List.mem_cons_self _ _, ?_⟩
      · simp [sortPairs, insertPair]
      · intro y hy
        rcases List.mem_cons.mp hy with hy | hy
        · rw [hy]; exact pairLe_refl a
        · cases hy
    · rw [show sortPairs (a :: as) = insertPair a (sortPairs as) from rfl, hs]
      unfold insertPair
      rcases h : pairLe a b with _ | _
      · refine Or.inr ⟨b, insertPair a bs, by simp, List.mem_cons_of_mem _ hmem, ?_⟩
        intro y hy
        rcases List.mem_cons.mp hy with hy | hy
        · rw [hy]
          rcases pairLe_total a b with ht | ht
          · rw [ht] at h; cases h
          · exact ht
        · exact hmin y hy
      · refine Or.inr ⟨a, b :: bs, by simp, List.mem_cons_self _ _, ?_⟩
        intro y hy
        rcases List.mem_cons.mp hy with hy | hy
        · rw [hy]; exact pairLe_refl a
        · exact pairLe_trans h (hmin y hy)

theorem sortPairs_head_min {l : List (ℚ × ℕ)} {x : ℚ × ℕ}
    (h : (sortPairs l).head? = some x) :
    x ∈ l ∧ ∀ y ∈ l, pairLe x y = true := by
  rcases sortPairs_min l with ⟨hs, _⟩ | ⟨b, bs, hs, hmem, hmin⟩
  · rw [hs] at h; cases h
  · rw [hs] at h
    simp only [List.head?_cons, Option.some.injEq] at h
    subst h
    exact ⟨hmem, hmin⟩

theorem sortPairs_head_none {l : List (ℚ × ℕ)}
    (h : (sortPairs l).head? = none) : l = [] := by
  rcases sortPairs_min l with ⟨_, hnil⟩ | ⟨b, bs, hs, _, _⟩
  · exact hnil
  · rw [hs] at h; cases h

/-! ### Facts about list minima -/

theorem minQ_spec :
    ∀ (l : List ℚ),
      (minQ l = none ∧ l = []) ∨
      (∃ m, minQ l = some m ∧ m ∈ l ∧ ∀ y ∈ l, m ≤ y)
  | [] => Or.inl ⟨rfl, rfl⟩
  | q :: qs => by
    rcases minQ_spec qs with ⟨hm, hnil⟩ | ⟨m, hm, hmem, hmin⟩
    · subst hnil
      refine Or.inr ⟨q, ?_, List.mem_cons_self _ _, ?_⟩
      · simp [minQ, eMin]
      · intro y hy
        rcases List.mem_cons.mp hy with hy | hy
        · rw [hy]
        · cases hy
    · have hstep : minQ (q :: qs) = eMin (some q) (minQ qs) := rfl
      rw [hm] at hstep
      refine Or.inr ⟨qmin q m, by rw [hstep]; rfl, ?_, ?_⟩
      · rw [qmin_eq_min]
        rcases min_cases q m with ⟨he, _⟩ | ⟨he, _⟩
        · rw [he]; exact List.mem_cons_self _ _
        · rw [he]; exact List.mem_cons_of_mem _ hmem
      · intro y hy
        rw [qmin_eq_min]
        rcases List.mem_cons.mp hy with hy | hy
        · rw [hy]; exact min_le_left _ _
        · exact le_trans (min_le_right _ _) (hmin y hy)

theorem minQ_eq_some_of_min {l : List ℚ} {x : ℚ}
    (hmem : x ∈ l) (hmin : ∀ y ∈ l, x ≤ y) : minQ l = some x := by
  rcases minQ_spec l with ⟨_, hnil⟩ | ⟨m, hm, hmmem, hmmin⟩
  · subst hnil; cases hmem
  · rw [hm]
    exact congrArg some (le_antisymm (hmmin x hmem) (hmin m hmmem))

/-! ### The first-strict-improvement fold of the neighbor loop -/

theorem foldl_first_min (f : ℕ → QDist) (mk : ℕ → Entry) :
    ∀ (ns : List ℕ) (b : QDist) (e : Entry),
      ((∀ n ∈ ns, eLt (f n) b = false) ∧
        ns.foldl (fun st n => if eLt (f n) st.1 then (f n, mk n) else st) (b, e) = (b, e)) ∨
      (∃ l1 n l2, ns = l1 ++ n :: l2 ∧ eLt (f n) b = true ∧
        (∀ m ∈ ns, eLt (f m) (f n) = false) ∧ (∀ m ∈ l1, eLt (f n) (f m) = true) ∧
        ns.foldl (fun st n => if eLt (f n) st.1 then (f n, mk n) else st) (b, e) = (f n, mk n))
  | [], b, e => Or.inl ⟨fun n hn => absurd hn (List.not_mem_nil n), rfl⟩
  | n0 :: ns, b, e => by
    have hstep :
        (n0 :: ns).foldl (fun st n => if eLt (f n) st.1 then (f n, mk n) else st) (b, e) =
          ns.foldl (fun st n => if eLt (f n) st.1 then (f n, mk n) else st)
            (if eLt (f n0) b then (f n0, mk n0) else (b, e)) := by
      simp [List.foldl_cons]
    rcases h0 : eLt (f n0) b with _ | _
    · rw [if_neg (by simp [h0])] at hstep
      rcases foldl_first_min f mk ns b e with ⟨hall, hres⟩ | ⟨l1, n, l2, hsplit, hlt, hmin, hfirst, hres⟩
      · refine Or.inl ⟨?_, by rw [hstep, hres]⟩
        intro m hm
        rcases List.mem_cons.mp hm with hm | hm
        · rw [hm]; exact h0
        · exact hall m hm
      · refine Or.inr ⟨n0 :: l1, n, l2, by rw [hsplit, List.cons_append], hlt, ?_, ?_,
          by rw [hstep, hres]⟩
        · intro m hm
          rcases List.mem_cons.mp hm with hm | hm
          · rw [hm]; exact eLt_false_of_true_false hlt h0
          · exact hmin m hm
        · intro m hm
          rcases List.mem_cons.mp hm with hm | hm
          · rw [hm]; exact eLt_true_of_true_false hlt h0
          · exact hfirst m hm
    · rw [if_pos (by simp [h0])] at hstep
      rcases foldl_first_min f mk ns (f n0) (mk n0) with ⟨hall, hres⟩ |
        ⟨l1, n, l2, hsplit, hlt, hmin, hfirst, hres⟩
      · refine Or.inr ⟨[], n0, ns, rfl, h0, ?_, ?_, ?_⟩
        · intro m hm
          rcases List.mem_cons.mp hm with hm | hm
          · rw [hm]; exact eLt_irrefl _
          · exact hall m hm
        · intro m hm; cases hm
        · rw [hstep, hres]
      · refine Or.inr ⟨n0 :: l1, n, l2, ?_, eLt_trans hlt h0, ?_, ?_, ?_⟩
        · rw [hsplit, List.cons_append]
        · intro m hm
          rcases List.mem_cons.mp hm with hm | hm
          · rw [hm]; exact eLt_asymm hlt
          · exact hmin m hm
        · intro m hm
          rcases List.mem_cons.mp hm with hm | hm
          · rw [hm]; exact hlt
          · exact hfirst m hm
        · rw [hstep, hres]

/-! ### Facts about the state differ and emitter -/

theorem emitDecision_error {prev : Option FState} {k : ℕ × ℕ} {v : Entry} {e : AlgError}
    (h : emitDecision prev k v = .error e) :
    ∃ p, prev = some p ∧ p ≠ [] ∧ flookup p k = none ∧ e = .keyError k := by
  match prev with
  | none => cases h
  | some p =>
    rw [show emitDecision (some p) k v =
        (if p = [] then .ok true
         else match flookup p k with
           | none => .error (.keyError k)
           | some v2 => .ok (decide (v2 ≠ v))) from rfl] at h
    by_cases hp : p = []
    · rw [if_pos hp] at h; cases h
    · rw [if_neg hp] at h
      cases hf : flookup p k with
      | none =>
        rw [hf] at h
        cases h
        exact ⟨p, rfl, hp, hf, rfl⟩
      | some v2 => rw [hf] at h; cases h

theorem emitDecision_found {p : FState} {k : ℕ × ℕ} {v v2 : Entry}
    (hp : p ≠ []) (hf : flookup p k = some v2) :
    emitDecision (some p) k v = .ok (decide (v2 ≠ v)) := by
  rw [show emitDecision (some p) k v =
      (if p = [] then .ok true
       else match flookup p k with
         | none => .error (.keyError k)
         | some v2 => .ok (decide (v2 ≠ v))) from rfl]
  rw [if_neg hp, hf]

theorem emitList_mem_iff {prev : Option FState} :
    ∀ {l em : FState}, emitList prev l = Except.ok em →
      ∀ (k : ℕ × ℕ) (v : Entry),
        ((k, v) ∈ em ↔ (k, v) ∈ l ∧ emitDecision prev k v = .ok true)
  | [], em, h, k, v => by
    have hem : em = [] := by
      have h2 : (Except.ok [] : Except AlgError FState) = .ok em := h
      cases h2; rfl
    subst hem
    simp
  | (k1, v1) :: rest, em, h, k, v => by
    have hstep : emitList prev ((k1, v1) :: rest) =
        (match emitDecision prev k1 v1 with
         | .error e => .error e
         | .ok b =>
           match emitList prev rest with
           | .error e => .error e
           | .ok tail => .ok (if b then (k1, v1) :: tail else tail)) := rfl
    rw [hstep] at h
    cases hd : emitDecision prev k1 v1 with
    | error e => rw [hd] at h; cases h
    | ok b =>
      rw [hd] at h
      cases ht : emitList prev rest with
      | error e => rw [ht] at h; cases h
      | ok tail =>
        rw [ht] at h
        have hem : em = if b then (k1, v1) :: tail else tail := by cases h; rfl
        subst hem
        have ih := emitList_mem_iff ht k v
        cases b with
        | false =>
          rw [if_neg (by simp)]
          rw [ih]
          constructor
          · rintro ⟨hmem, hdec⟩
            exact ⟨List.mem_cons_of_mem _ hmem, hdec⟩
          · rintro ⟨hmem, hdec⟩
            rcases List.mem_cons.mp hmem with heq | hmem2
            · exfalso
              injection heq with hk hv
              subst hk; subst hv
              rw [hd] at hdec
              simp at hdec
            · exact ⟨hmem2, hdec⟩
        | true =>
          rw [if_pos rfl]
          constructor
          · intro hmem
            rcases List.mem_cons.mp hmem with heq | hmem2
            · injection heq with hk hv
              subst hk; subst hv
              exact ⟨List.mem_cons_self _ _, hd⟩
            · rcases ih.mp hmem2 with ⟨hm, hdec⟩
              exact ⟨List.mem_cons_of_mem _ hm, hdec⟩
          · rintro ⟨hmem, hdec⟩
            rcases List.mem_cons.mp hmem with heq | hmem2
            · rw [heq]; exact List.mem_cons_self _ _
            · exact List.mem_cons_of_mem _ (ih.mpr ⟨hmem2, hdec⟩)

theorem emitList_error_spec {prev : Option FState} :
    ∀ {l : FState} {e : AlgError}, emitList prev l = .error e →
      ∃ p k0, prev = some p ∧ p ≠ [] ∧ e = .keyError k0 ∧
        k0 ∈ l.map Prod.fst ∧ flookup p k0 = none
  | [], e, h => by cases h
  | (k1, v1) :: rest, e, h => by
    have hstep : emitList prev ((k1, v1) :: rest) =
        (match emitDecision prev k1 v1 with
         | .error e => .error e
         | .ok b =>
           match emitList prev rest with
           | .error e => .error e
           | .ok tail => .ok (if b then (k1, v1) :: tail else tail)) := rfl
    rw [hstep] at h
    cases hd : emitDecision prev k1 v1 with
    | error e1 =>
      rw [hd] at h
      cases h
      rcases emitDecision_error hd with ⟨p, hprev, hpne, hfk, hkey⟩
      exact ⟨p, k1, hprev, hpne, hkey, by simp, hfk⟩
    | ok b =>
      rw [hd] at h
      cases ht : emitList prev rest with
      | error e1 =>
        rw [ht] at h
        cases h
        rcases emitList_error_spec ht with ⟨p, k0, hprev, hpne, hkey, hmem, hfk⟩
        exact ⟨p, k0, hprev, hpne, hkey, by simp only [List.map_cons]; exact List.mem_cons_of_mem _ hmem, hfk⟩
      | ok tail => rw [ht] at h; cases h

theorem emitList_no_change {full : FState} (hne : full ≠ []) :
    ∀ {l : FState}, (∀ k v, (k, v) ∈ l → flookup full k = some v) →
      emitList (some full) l = .ok []
  | [], _ => rfl
  | (k1, v1) :: rest, hall => by
    have hd : emitDecision (some full) k1 v1 = .ok false := by
      rw [emitDecision_found hne (hall k1 v1 (List.mem_cons_self _ _))]
      simp
    have ht : emitList (some full) rest = .ok [] :=
      emitList_no_change hne (fun k v hm => hall k v (List.mem_cons_of_mem _ hm))
    have hstep : emitList (some full) ((k1, v1) :: rest) =
        (match emitDecision (some full) k1 v1 with
         | .error e => .error e
         | .ok b =>
           match emitList (some full) rest with
           | .error e => .error e
           | .ok tail => .ok (if b then (k1, v1) :: tail else tail)) := rfl
    rw [hstep, hd, ht]
    simp

theorem emitList_error_of_missing {p : FState} (hpne : p ≠ []) :
    ∀ {l : FState} (k : ℕ × ℕ), k ∈ l.map Prod.fst → flookup p k = none →
      ∃ e, emitList (some p) l = .error e
  | [], k, hmem, _ => by cases hmem
  | (k1, v1) :: rest, k, hmem, hmiss => by
    have hstep : emitList (some p) ((k1, v1) :: rest) =
        (match emitDecision (some p) k1 v1 with
         | .error e => .error e
         | .ok b =>
           match emitList (some p) rest with
           | .error e => .error e
           | .ok tail => .ok (if b then (k1, v1) :: tail else tail)) := rfl
    cases hf : flookup p k1 with
    | none =>
      refine ⟨.keyError k1, ?_⟩
      rw [hstep]
      have hd : emitDecision (some p) k1 v1 = .error (.keyError k1) := by
        rw [show emitDecision (some p) k1 v1 =
            (if p = [] then .ok true
             else match flookup p k1 with
               | none => .error (.keyError k1)
               | some v2 => .ok (decide (v2 ≠ v1))) from rfl]
        rw [if_neg hpne, hf]
      rw [hd]
    | some v2 =>
      have hk : k ≠ k1 := by
        intro hc; rw [hc, hf] at hmiss; cases hmiss
      have hmem2 : k ∈ rest.map Prod.fst := by
        rcases List.mem_map.mp hmem with ⟨kv, hkv, hfst⟩
        rcases List.mem_cons.mp hkv with heq | hmem3
        · exfalso; apply hk; rw [← hfst, heq]
        · exact List.mem_map.mpr ⟨kv, hmem3, hfst⟩
      rcases emitList_error_of_missing hpne k hmem2 hmiss with ⟨e, he⟩
      refine ⟨e, ?_⟩
      rw [hstep, emitDecision_found hpne hf, he]

/-! ### The key set of the computed forwarding table -/

/-- The keys of the stage-1 loop, in loop order. -/
def satGsKeys (S G : ℕ) : List (ℕ × ℕ) :=
  (List.range S).flatMap fun curr => (List.range G).map fun g => (curr, S + g)

/-- The keys of the stage-2 loop, in loop order. -/
def gsGsKeys (S G : ℕ) : List (ℕ × ℕ) :=
  (List.range G).flatMap fun src =>
    ((List.range G).filter fun dst => src != dst).map fun dst => (S + src, S + dst)

theorem map_fst_satGsPairs (inp : Input) :
    (satGsPairs inp).map Prod.fst = satGsKeys inp.numSats inp.numGroundStations := by
  unfold satGsPairs satGsKeys
  rw [List.map_flatMap]
  congr 1
  funext curr
  rw [List.map_map]
  rfl

theorem map_fst_gsGsPairs (inp : Input) :
    (gsGsPairs inp).map Prod.fst = gsGsKeys inp.numSats inp.numGroundStations := by
  unfold gsGsPairs gsGsKeys
  rw [List.map_flatMap]
  congr 1
  funext src
  rw [List.map_map]
  rfl

theorem map_fst_computedPairs (inp : Input) :
    (computedPairs inp).map Prod.fst =
      satGsKeys inp.numSats inp.numGroundStations ++
      gsGsKeys inp.numSats inp.numGroundStations := by
  unfold computedPairs
  rw [List.map_append, map_fst_satGsPairs, map_fst_gsGsPairs]

theorem mem_satGsKeys {S G : ℕ} {k : ℕ × ℕ} :
    k ∈ satGsKeys S G ↔ k.1 < S ∧ S ≤ k.2 ∧ k.2 < S + G := by
  obtain ⟨a, b⟩ := k
  dsimp only
  unfold satGsKeys
  simp only [List.mem_flatMap, List.mem_map, List.mem_range]
  constructor
  · rintro ⟨curr, hc, g, hg, heq⟩
    injection heq with h1 h2
    omega
  · rintro ⟨h1, h2, h3⟩
    refine ⟨a, h1, b - S, by omega, ?_⟩
    simp only [Prod.mk.injEq]
    exact ⟨trivial, by omega⟩

theorem mem_gsGsKeys {S G : ℕ} {k : ℕ × ℕ} :
    k ∈ gsGsKeys S G ↔
      S ≤ k.1 ∧ k.1 < S + G ∧ S ≤ k.2 ∧ k.2 < S + G ∧ k.1 ≠ k.2 := by
  obtain ⟨a, b⟩ := k
  dsimp only
  unfold gsGsKeys
  simp only [List.mem_flatMap, List.mem_map, List.mem_filter, List.mem_range, bne_iff_ne]
  constructor
  · rintro ⟨src, hs, dst, ⟨hd, hne⟩, heq⟩
    injection heq with h1 h2
    omega
  · rintro ⟨h1, h2, h3, h4, h5⟩
    refine ⟨a - S, by omega, b - S, ⟨by omega, by omega⟩, ?_⟩
    simp only [Prod.mk.injEq]
    exact ⟨by omega, by omega⟩

theorem nodup_flatMap_of {α β : Type} :
    ∀ {l : List α} {f : α → List β}, l.Nodup → (∀ a ∈ l, (f a).Nodup) →
      (∀ a ∈ l, ∀ a2 ∈ l, ∀ b, b ∈ f a → b ∈ f a2 → a = a2) → (l.flatMap f).Nodup
  | [], f, _, _, _ => by simp
  | a :: as, f, hl, hf, hsep => by
    rw [List.flatMap_cons]
    have hl2 := List.nodup_cons.mp hl
    refine List.Nodup.append (hf a (List.mem_cons_self _ _))
      (nodup_flatMap_of hl2.2 (fun x hx => hf x (List.mem_cons_of_mem _ hx))
        (fun x hx y hy b hbx hby =>
          hsep x (List.mem_cons_of_mem _ hx) y (List.mem_cons_of_mem _ hy) b hbx hby)) ?_
    intro b hba hbas
    rcases List.mem_flatMap.mp hbas with ⟨x, hx, hbx⟩
    have hax : a = x :=
      hsep a (List.mem_cons_self _ _) x (List.mem_cons_of_mem _ hx) b hba hbx
    rw [← hax] at hx
    exact hl2.1 hx

theorem nodup_satGsKeys (S G : ℕ) : (satGsKeys S G).Nodup := by
  unfold satGsKeys
  refine nodup_flatMap_of (List.nodup_range S) ?_ ?_
  · intro a _
    refine List.Nodup.map ?_ (List.nodup_range G)
    intro x y hxy
    simp only [Prod.mk.injEq] at hxy
    omega
  · intro a _ a2 _ b hb hb2
    rcases List.mem_map.mp hb with ⟨g, _, hgb⟩
    rcases List.mem_map.mp hb2 with ⟨g2, _, hgb2⟩
    rw [← hgb2] at hgb
    simp only [Prod.mk.injEq] at hgb
    exact hgb.1

theorem nodup_gsGsKeys (S G : ℕ) : (gsGsKeys S G).Nodup := by
  unfold gsGsKeys
  refine nodup_flatMap_of (List.nodup_range G) ?_ ?_
  · intro a _
    refine List.Nodup.map ?_ (List.Nodup.filter _ (List.nodup_range G))
    intro x y hxy
    simp only [Prod.mk.injEq] at hxy
    omega
  · intro a _ a2 _ b hb hb2
    rcases List.mem_map.mp hb with ⟨g, _, hgb⟩
    rcases List.mem_map.mp hb2 with ⟨g2, _, hgb2⟩
    rw [← hgb2] at hgb
    simp only [Prod.mk.injEq] at hgb
    omega

theorem nodup_computedKeys (inp : Input) :
    ((computedPairs inp).map Prod.fst).Nodup := by
  rw [map_fst_computedPairs]
  refine List.Nodup.append (nodup_satGsKeys _ _) (nodup_gsGsKeys _ _) ?_
  intro k hk1 hk2
  have h1 := mem_satGsKeys.mp hk1
  have h2 := mem_gsGsKeys.mp hk2
  omega

theorem sum_map_const {α : Type} (l : List α) (c : ℕ) :
    (l.map fun _ => c).sum = l.length * c := by
  induction l with
  | nil => simp
  | cons a as ih =>
    rw [List.map_cons, List.sum_cons, ih, List.length_cons]
    ring

theorem length_filter_bne {G a : ℕ} (ha : a < G) :
    ((List.range G).filter fun b => a != b).length = G - 1 := by
  induction G with
  | zero => omega
  | succ n ih =>
    rw [List.range_succ, List.filter_append, List.length_append]
    rcases Nat.lt_or_ge a n with h | h
    · rw [ih h]
      have hone : (([n] : List ℕ).filter fun b => a != b) = [n] := by
        have : (a != n) = true := by simp [bne_iff_ne]; omega
        simp [List.filter, this]
      rw [hone]
      simp only [List.length_singleton]
      omega
    · have han : a = n := by omega
      subst han
      have h1 : ((List.range a).filter fun b => a != b) = List.range a := by
        apply List.filter_eq_self.mpr
        intro b hb
        have : b < a := List.mem_range.mp hb
        simp [bne_iff_ne]
        omega
      have h2 : (([a] : List ℕ).filter fun b => a != b) = [] := by
        simp [List.filter]
      rw [h1, h2, List.length_range]
      simp

theorem length_satGsKeys (S G : ℕ) : (satGsKeys S G).length = S * G := by
  unfold satGsKeys
  rw [List.length_flatMap]
  have hcongr :
      List.map (List.length ∘ fun curr => (List.range G).map fun g => (curr, S + g))
        (List.range S) = (List.range S).map fun _ => G := by
    apply List.map_congr_left
    intro a _
    simp
  rw [hcongr, sum_map_const, List.length_range]

theorem length_gsGsKeys (S G : ℕ) : (gsGsKeys S G).length = G * (G - 1) := by
  unfold gsGsKeys
  rw [List.length_flatMap]
  have hcongr :
      List.map
        (List.length ∘ fun src =>
          ((List.range G).filter fun dst => src != dst).map fun dst => (S + src, S + dst))
        (List.range G) = (List.range G).map fun _ => G - 1 := by
    apply List.map_congr_left
    intro a ha
    simp only [Function.comp_apply, List.length_map]
    exact length_filter_bne (List.mem_range.mp ha)
  rw [hcongr, sum_map_const, List.length_range]

theorem flookup_eq_some_of_mem {k : ℕ × ℕ} {v : Entry} :
    ∀ {l : FState}, (l.map Prod.fst).Nodup → (k, v) ∈ l → flookup l k = some v
  | [], _, hmem => by cases hmem
  | (k1, v1) :: rest, hnd, hmem => by
    rw [List.map_cons] at hnd
    have hnd2 := List.nodup_cons.mp hnd
    by_cases hk : k1 = k
    · have hv : v1 = v := by
        rcases List.mem_cons.mp hmem with heq | hmem2
        · injection heq with ha hb; rw [hb]
        · exfalso
          apply hnd2.1
          rw [hk]
          exact List.mem_map.mpr ⟨(k, v), hmem2, rfl⟩
      rw [show flookup ((k1, v1) :: rest) k =
          (if k1 = k then some v1 else flookup rest k) from rfl, if_pos hk, hv]
    · have hmem2 : (k, v) ∈ rest := by
        rcases List.mem_cons.mp hmem with heq | hmem2
        · exfalso; apply hk; injection heq with ha hb; rw [ha]
        · exact hmem2
      rw [show flookup ((k1, v1) :: rest) k =
          (if k1 = k then some v1 else flookup rest k) from rfl, if_neg hk]
      exact flookup_eq_some_of_mem hnd2.2 hmem2

/-! ### Inversion of the top-level epoch computation -/

theorem run_ok_iff {inp : Input} {out : EpochOutput} :
    algorithm_free_one_only_over_isls inp = .ok out ↔
      inp.satNetGraphWithoutGs.numNodes = inp.numSats ∧
      ((List.range inp.numSats).any fun sid =>
        (inp.satNetGraphWithoutGs.neighbors sid).any fun n =>
          decide (inp.numSats ≤ n)) = false ∧
      out.fstate = computedPairs inp ∧
      emitList inp.prevOutput (computedPairs inp) = .ok out.emitted := by
  unfold algorithm_free_one_only_over_isls
  by_cases hc1 : inp.satNetGraphWithoutGs.numNodes ≠ inp.numSats
  · rw [if_pos hc1]
    constructor
    · intro h; cases h
    · rintro ⟨h1, _⟩; exact absurd h1 hc1
  · rw [if_neg hc1]
    have hc1e : inp.satNetGraphWithoutGs.numNodes = inp.numSats := by
      by_contra hcc; exact hc1 hcc
    by_cases hc2 : ((List.range inp.numSats).any fun sid =>
        (inp.satNetGraphWithoutGs.neighbors sid).any fun n =>
          decide (inp.numSats ≤ n)) = true
    · rw [if_pos hc2]
      constructor
      · intro h; cases h
      · rintro ⟨_, h2, _⟩
        rw [hc2] at h2; cases h2
    · rw [if_neg hc2]
      have hc2f : ((List.range inp.numSats).any fun sid =>
          (inp.satNetGraphWithoutGs.neighbors sid).any fun n =>
            decide (inp.numSats ≤ n)) = false := by
        cases hb : ((List.range inp.numSats).any fun sid =>
            (inp.satNetGraphWithoutGs.neighbors sid).any fun n =>
              decide (inp.numSats ≤ n)) with
        | false => rfl
        | true => exact absurd hb hc2
      cases he : emitList inp.prevOutput (computedPairs inp) with
      | error e =>
        constructor
        · intro h; cases h
        · rintro ⟨_, _, _, h4⟩
          cases h4
      | ok em =>
        constructor
        · intro h
          cases h
          exact ⟨hc1e, hc2f, rfl, rfl⟩
        · rintro ⟨_, _, h3, h4⟩
          injection h4 with h5
          subst h5
          rw [← h3]

theorem mem_neighbors {g : Graph} {v n : ℕ} :
    n ∈ g.neighbors v ↔
      ∃ e ∈ g.edges, (e.1 = v ∧ e.2.1 = n) ∨ (e.1 ≠ v ∧ e.2.1 = v ∧ e.1 = n) := by
  unfold Graph.neighbors
  rw [List.mem_filterMap]
  constructor
  · rintro ⟨e, he, hfe⟩
    by_cases h1 : e.1 = v
    · rw [if_pos h1] at hfe
      injection hfe with h2
      exact ⟨e, he, Or.inl ⟨h1, h2⟩⟩
    · rw [if_neg h1] at hfe
      by_cases h2 : e.2.1 = v
      · rw [if_pos h2] at hfe
        injection hfe with h3
        exact ⟨e, he, Or.inr ⟨h1, h2, h3⟩⟩
      · rw [if_neg h2] at hfe; cases hfe
  · rintro ⟨e, he, ⟨h1, h2⟩ | ⟨h1, h2, h3⟩⟩
    · exact ⟨e, he, by rw [if_pos h1, h2]⟩
    · exact ⟨e, he, by rw [if_neg h1, if_pos h2, h3]⟩

theorem neighbor_check_iff_edge {g : Graph} {S : ℕ} :
    (∃ sid, sid < S ∧ ∃ n ∈ g.neighbors sid, S ≤ n) ↔
      ∃ e ∈ g.edges, (e.1 < S ∧ S ≤ e.2.1) ∨ (e.2.1 < S ∧ S ≤ e.1) := by
  constructor
  · rintro ⟨sid, hsid, n, hn, hSn⟩
    rcases mem_neighbors.mp hn with ⟨e, he, ⟨h1, h2⟩ | ⟨h1, h2, h3⟩⟩
    · exact ⟨e, he, Or.inl ⟨by omega, by omega⟩⟩
    · exact ⟨e, he, Or.inr ⟨by omega, by omega⟩⟩
  · rintro ⟨e, he, ⟨h1, h2⟩ | ⟨h1, h2⟩⟩
    · refine ⟨e.1, h1, e.2.1, mem_neighbors.mpr ⟨e, he, Or.inl ⟨rfl, rfl⟩⟩, h2⟩
    · refine ⟨e.2.1, h1, e.1, mem_neighbors.mpr ⟨e, he, Or.inr ⟨by omega, rfl, rfl⟩⟩, h2⟩

theorem topology_check_iff {inp : Input} :
    ((List.range inp.numSats).any fun sid =>
      (inp.satNetGraphWithoutGs.neighbors sid).any fun n =>
        decide (inp.numSats ≤ n)) = true ↔
    ∃ sid, sid < inp.numSats ∧
      ∃ n ∈ inp.satNetGraphWithoutGs.neighbors sid, inp.numSats ≤ n := by
  rw [List.any_eq_true]
  constructor
  · rintro ⟨sid, hsid, hany⟩
    rcases List.any_eq_true.mp hany with ⟨n, hn, hd⟩
    exact ⟨sid, List.mem_range.mp hsid, n, hn, of_decide_eq_true hd⟩
  · rintro ⟨sid, hsid, n, hn, hSn⟩
    exact ⟨sid, List.mem_range.mpr hsid, List.any_eq_true.mpr ⟨n, hn, decide_eq_true hSn⟩⟩

theorem run_error_topology_iff {inp : Input} :
    algorithm_free_one_only_over_isls inp = .error .topologyError ↔
      inp.satNetGraphWithoutGs.numNodes ≠ inp.numSats ∨
      ∃ e ∈ inp.satNetGraphWithoutGs.edges,
        (e.1 < inp.numSats ∧ inp.numSats ≤ e.2.1) ∨
        (e.2.1 < inp.numSats ∧ inp.numSats ≤ e.1) := by
  unfold algorithm_free_one_only_over_isls
  by_cases hc1 : inp.satNetGraphWithoutGs.numNodes ≠ inp.numSats
  · rw [if_pos hc1]
    constructor
    · intro _; exact Or.inl hc1
    · intro _; rfl
  · rw [if_neg hc1]
    by_cases hc2 : ((List.range inp.numSats).any fun sid =>
        (inp.satNetGraphWithoutGs.neighbors sid).any fun n =>
          decide (inp.numSats ≤ n)) = true
    · rw [if_pos hc2]
      have hedge := neighbor_check_iff_edge.mp (topology_check_iff.mp hc2)
      constructor
      · intro _; exact Or.inr hedge
      · intro _; rfl
    · rw [if_neg hc2]
      have hno : ¬(∃ e ∈ inp.satNetGraphWithoutGs.edges,
          (e.1 < inp.numSats ∧ inp.numSats ≤ e.2.1) ∨
          (e.2.1 < inp.numSats ∧ inp.numSats ≤ e.1)) := by
        intro hc
        exact hc2 (topology_check_iff.mpr (neighbor_check_iff_edge.mpr hc))
      have hrhs : ¬(inp.satNetGraphWithoutGs.numNodes ≠ inp.numSats ∨
          ∃ e ∈ inp.satNetGraphWithoutGs.edges,
            (e.1 < inp.numSats ∧ inp.numSats ≤ e.2.1) ∨
            (e.2.1 < inp.numSats ∧ inp.numSats ≤ e.1)) := by
        rintro (h | h)
        · exact hc1 h
        · exact hno h
      cases he : emitList inp.prevOutput (computedPairs inp) with
      | error e =>
        rcases emitList_error_spec he with ⟨p, k0, _, _, hkey, _, _⟩
        subst hkey
        constructor
        · intro h
          injection h with h2
          cases h2
        · intro h
          exact absurd h hrhs
      | ok em =>
        constructor
        · intro h; cases h
        · intro h
          exact absurd h hrhs

/-! ### Decidable equality of results, and concrete inputs used as witnesses -/

instance {ε α : Type} [DecidableEq ε] [DecidableEq α] : DecidableEq (Except ε α) := fun a b =>
  match a, b with
  | .error e, .error f =>
    if h : e = f then .isTrue (by rw [h]) else .isFalse (by intro hc; cases hc; exact h rfl)
  | .error _, .ok _ => .isFalse (by intro hc; cases hc)
  | .ok _, .error _ => .isFalse (by intro hc; cases hc)
  | .ok x, .ok y =>
    if h : x = y then .isTrue (by rw [h]) else .isFalse (by intro hc; cases hc; exact h rfl)

/-- The three-satellite line scenario of the spec: satellites 0-1-2 with unit
ISL weights, ground station 0 sees satellite 0 and ground station 1 sees
satellite 2, both at access distance 5. -/
def lineGraph : Graph := ⟨3, [(0, 1, 1), (1, 2, 1)]⟩

/-- Input for the line scenario: node ids 3 and 4 are the ground stations. -/
def lineInp : Input :=
  ⟨3, 2, lineGraph,
   fun g => if g = 0 then [(5, 0)] else if g = 1 then [(5, 2)] else [],
   fun _ => 2,
   fun a b => ((10 * a + b : ℕ) : ℤ),
   none⟩

/-- The epoch output of the line scenario. -/
def lineOut : EpochOutput :=
  match algorithm_free_one_only_over_isls lineInp with
  | .ok o => o
  | .error _ => ⟨[], []⟩

/-- Two satellites joined by an edge of weight exactly `10^15` (the initial
best-distance bound of the neighbor loop); one ground station sees
satellite 1 at access distance 0. -/
def cexGraph : Graph := ⟨2, [(0, 1, bigDist)]⟩

/-- Input exhibiting the `10^15` threshold of the neighbor loop. -/
def cexInput : Input :=
  ⟨2, 1, cexGraph, fun _ => [(0, 1)], fun _ => 2, fun _ _ => 7, none⟩

/-- Star graph on satellites 0-1 and 0-2 with unit weights; the ground
station sees satellites 2 and 1, in that order, both at access distance 5,
so both candidates cost 6 and tie. -/
def cex5Graph : Graph := ⟨3, [(0, 1, 1), (0, 2, 1)]⟩

/-- Input exhibiting a cost tie between satellites 2 (first in scan order)
and 1 (smaller id). -/
def cex5Input : Input :=
  ⟨3, 1, cex5Graph, fun _ => [(5, 2), (5, 1)], fun _ => 2, fun _ _ => 7, none⟩

/-- The line scenario with a non-empty previous state that contains only the
key (0, 3), so the key (0, 4) computed next is missing. -/
def inp10 : Input := setPrev lineInp (some [((0, 3), (3, 2, 0))])

/-- The stage-1 selection rule as claim C5 words it: scan the candidate list
in visibility-list order and keep the first candidate that strictly improves
the cost, so that among minimum-cost candidates the one encountered first
wins.  This definition follows the words of the spec, for comparison with
the selection `selectedCandidate` implemented by the code. -/
def selectedCandidateByScanOrder (inp : Input) (curr dst_gs : ℕ) : Option (ℚ × ℕ) :=
  (satToGsPossibilities inp curr dst_gs).foldl
    (fun acc p =>
      match acc with
      | none => some p
      | some q => if Rat.blt p.1 q.1 then some p else acc)
    none

/-! ### Unfolding helpers for the decision functions -/

theorem satToGsDecision_none {inp : Input} {curr dst_gs : ℕ}
    (h : selectedCandidate inp curr dst_gs = none) :
    satToGsDecision inp curr dst_gs = (none, dropEntry) := by
  unfold satToGsDecision
  rw [h]

theorem satToGsDecision_some {inp : Input} {curr dst_gs : ℕ} {c : ℚ} {s : ℕ}
    (h : selectedCandidate inp curr dst_gs = some (c, s)) :
    satToGsDecision inp curr dst_gs =
      (some c,
        if curr = s then
          (((inp.numSats + dst_gs : ℕ) : ℤ), inp.numIslsPerSat s, 0)
        else (neighborHopState inp curr s).2) := by
  unfold satToGsDecision
  rw [h]

theorem gsToGsDecision_none {inp : Input} {g1 g2 : ℕ}
    (h : (sortPairs (gsToGsPossibilities inp g1 g2)).head? = none) :
    gsToGsDecision inp g1 g2 = dropEntry := by
  unfold gsToGsDecision
  rw [h]

theorem gsToGsDecision_some {inp : Input} {g1 g2 : ℕ} {c : ℚ} {s : ℕ}
    (h : (sortPairs (gsToGsPossibilities inp g1 g2)).head? = some (c, s)) :
    gsToGsDecision inp g1 g2 = ((s : ℤ), 0, inp.numIslsPerSat s) := by
  unfold gsToGsDecision
  rw [h]

theorem satToGsPossibilities_eq_nil_iff {inp : Input} {curr dst_gs : ℕ} :
    satToGsPossibilities inp curr dst_gs = [] ↔
      ∀ b ∈ inp.groundStationSatellitesInRange dst_gs,
        inp.satNetGraphWithoutGs.dist curr b.2 = none := by
  unfold satToGsPossibilities
  rw [List.filterMap_eq_nil]
  constructor
  · intro h b hb
    have hfb := h b hb
    cases hd : inp.satNetGraphWithoutGs.dist curr b.2 with
    | none => rfl
    | some d => rw [hd] at hfb; cases hfb
  · intro h b hb
    rw [h b hb]

theorem gsToGsPossibilities_eq_nil_iff {inp : Input} {g1 g2 : ℕ} :
    gsToGsPossibilities inp g1 g2 = [] ↔
      ∀ a ∈ inp.groundStationSatellitesInRange g1,
        dist_satellite_to_ground_station inp a.2 g2 = none := by
  unfold gsToGsPossibilities
  rw [List.filterMap_eq_nil]
  constructor
  · intro h a ha
    have hfa := h a ha
    cases hd : dist_satellite_to_ground_station inp a.2 g2 with
    | none => rfl
    | some d => rw [hd] at hfa; cases hfa
  · intro h a ha
    rw [h a ha]

theorem natEntry_ne_drop {x : ℕ} {i j : ℤ} : ((x : ℤ), i, j) ≠ dropEntry := by
  unfold dropEntry
  intro h
  injection h with h1 h2
  omega

/-! ### Claim C1 -/

/-- C1 counterexample: in `cexInput` the only visible satellite (id 1, access
distance 0) is reachable from satellite 0 (backbone distance `10^15`), yet the
computed forwarding entry for (0, ground station 0) is the drop sentinel,
because the neighbor loop starts its best distance at `10^15` and the strict
comparison never fires.  So the claimed equivalence "sentinel iff no visible
satellite reachable" is false at this input. -/
theorem C1_counterexample :
    (satToGsDecision cexInput 0 0).2 = dropEntry ∧
    (0, 1) ∈ cexInput.groundStationSatellitesInRange 0 ∧
    cexInput.satNetGraphWithoutGs.dist 0 1 ≠ none := by
  with_unfolding_all decide

/-- C1 (amended): the stage-1 forwarding entry for satellite `curr` and ground
station `dst_gs` is the drop sentinel iff either no satellite in the
visibility list is reachable from `curr` in the backbone graph, or the
selected destination satellite differs from `curr` and no backbone neighbor
`n` of `curr` has `dist[curr][n] + dist[n][dst_sat]` strictly below the
initial best-distance bound `10^15`. -/
theorem C1_sentinel_iff (inp : Input) (curr dst_gs : ℕ) :
    (satToGsDecision inp curr dst_gs).2 = dropEntry ↔
      (∀ b ∈ inp.groundStationSatellitesInRange dst_gs,
        inp.satNetGraphWithoutGs.dist curr b.2 = none) ∨
      (∃ c s, selectedCandidate inp curr dst_gs = some (c, s) ∧ curr ≠ s ∧
        ∀ n ∈ inp.satNetGraphWithoutGs.neighbors curr,
          eLt (neighborSum inp curr s n) (some bigDist) = false) := by
  cases hsel : selectedCandidate inp curr dst_gs with
  | none =>
    have hP : satToGsPossibilities inp curr dst_gs = [] := sortPairs_head_none hsel
    rw [satToGsDecision_none hsel]
    constructor
    · intro _
      exact Or.inl (satToGsPossibilities_eq_nil_iff.mp hP)
    · intro _
      rfl
  | some cs =>
    obtain ⟨c, s⟩ := cs
    have hmin := sortPairs_head_min hsel
    have hPne : ¬(∀ b ∈ inp.groundStationSatellitesInRange dst_gs,
        inp.satNetGraphWithoutGs.dist curr b.2 = none) := by
      intro hall
      have hP := satToGsPossibilities_eq_nil_iff.mpr hall
      rw [hP] at hmin
      cases hmin.1
    rw [satToGsDecision_some hsel]
    by_cases hcs : curr = s
    · rw [if_pos hcs]
      dsimp only
      constructor
      · intro h
        exact absurd h natEntry_ne_drop
      · rintro (h | ⟨c2, s2, hsel2, hne2, _⟩)
        · exact absurd h hPne
        · injection hsel2 with h3
          injection h3 with h4 h5
          exact absurd (hcs.trans h5) hne2
    · rw [if_neg hcs]
      dsimp only
      rcases foldl_first_min (fun n => neighborSum inp curr s n) (neighborEntry inp curr)
        (inp.satNetGraphWithoutGs.neighbors curr) (some bigDist) dropEntry with
        ⟨hall, hres⟩ | ⟨l1, n, l2, hsplit, hlt, hmn, hfirst, hres⟩
      · have hhop : neighborHopState inp curr s = (some bigDist, dropEntry) := hres
        rw [hhop]
        constructor
        · intro _
          exact Or.inr ⟨c, s, rfl, hcs, hall⟩
        · intro _
          rfl
      · have hhop : neighborHopState inp curr s =
            (neighborSum inp curr s n, neighborEntry inp curr n) := hres
        rw [hhop]
        have hmem_n : n ∈ inp.satNetGraphWithoutGs.neighbors curr := by
          rw [hsplit]
          exact List.mem_append_right _ (List.mem_cons_self _ _)
        have hlt2 : eLt (neighborSum inp curr s n) (some bigDist) = true := hlt
        constructor
        · intro h
          have hne : neighborEntry inp curr n ≠ dropEntry := natEntry_ne_drop
          exact absurd h hne
        · rintro (h | ⟨c2, s2, hsel2, hne2, hall2⟩)
          · exact absurd h hPne
          · injection hsel2 with h3
            injection h3 with h4 h5
            rw [← h5] at hall2
            have hcontra := hall2 n hmem_n
            rw [hcontra] at hlt2
            cases hlt2

/-! ### Claim C2 -/

theorem eMinList_eq_minQ_costs (dfun : ℕ → QDist) :
    ∀ (vis : List (ℚ × ℕ)),
      eMinList (vis.map fun b => eAdd (dfun b.2) (some b.1)) =
        minQ ((vis.filterMap fun b =>
          match dfun b.2 with
          | none => none
          | some d => some (d + b.1, b.2)).map Prod.fst)
  | [] => rfl
  | b :: bs => by
    have ih := eMinList_eq_minQ_costs dfun bs
    have hL : eMinList ((b :: bs).map fun x => eAdd (dfun x.2) (some x.1)) =
        eMin (eAdd (dfun b.2) (some b.1))
          (eMinList (bs.map fun x => eAdd (dfun x.2) (some x.1))) := rfl
    cases hd : dfun b.2 with
    | none =>
      have hR : ((b :: bs).filterMap fun x =>
          match dfun x.2 with
          | none => none
          | some d => some (d + x.1, x.2)) =
          bs.filterMap fun x =>
            match dfun x.2 with
            | none => none
            | some d => some (d + x.1, x.2) := by
        simp only [List.filterMap_cons, hd]
      rw [hL, hd, hR, ih]
      rfl
    | some d =>
      have hR : ((b :: bs).filterMap fun x =>
          match dfun x.2 with
          | none => none
          | some dd => some (dd + x.1, x.2)) =
          (d + b.1, b.2) :: bs.filterMap fun x =>
            match dfun x.2 with
            | none => none
            | some dd => some (dd + x.1, x.2) := by
        simp only [List.filterMap_cons, hd]
      rw [hL, hd, hR, List.map_cons, ih]
      rfl

/-- C2: the cached distance `dist_satellite_to_ground_station[(curr, gs)]`
equals the minimum over all visible satellites of (backbone distance + access
distance), where an unreachable satellite contributes `+inf`; it is `+inf`
exactly when no visible satellite is reachable, and it equals the total cost
of the candidate selected in stage 1. -/
theorem C2_cached_distance (inp : Input) (curr dst_gs : ℕ) :
    dist_satellite_to_ground_station inp curr dst_gs =
      eMinList ((inp.groundStationSatellitesInRange dst_gs).map
        fun b => eAdd (inp.satNetGraphWithoutGs.dist curr b.2) (some b.1)) ∧
    (∀ c s, selectedCandidate inp curr dst_gs = some (c, s) →
      dist_satellite_to_ground_station inp curr dst_gs = some c) := by
  constructor
  · rw [eMinList_eq_minQ_costs (inp.satNetGraphWithoutGs.dist curr)
      (inp.groundStationSatellitesInRange dst_gs)]
    have hPdef : (inp.groundStationSatellitesInRange dst_gs).filterMap
        (fun b => match inp.satNetGraphWithoutGs.dist curr b.2 with
          | none => none
          | some d => some (d + b.1, b.2)) = satToGsPossibilities inp curr dst_gs := rfl
    rw [hPdef]
    cases hsel : selectedCandidate inp curr dst_gs with
    | none =>
      have hP : satToGsPossibilities inp curr dst_gs = [] := sortPairs_head_none hsel
      rw [show dist_satellite_to_ground_station inp curr dst_gs =
          (satToGsDecision inp curr dst_gs).1 from rfl]
      rw [satToGsDecision_none hsel, hP]
      rfl
    | some cs =>
      obtain ⟨c, s⟩ := cs
      have hmin := sortPairs_head_min hsel
      rw [show dist_satellite_to_ground_station inp curr dst_gs =
          (satToGsDecision inp curr dst_gs).1 from rfl]
      rw [satToGsDecision_some hsel]
      dsimp only
      have hcost_mem : c ∈ (satToGsPossibilities inp curr dst_gs).map Prod.fst :=
        List.mem_map.mpr ⟨(c, s), hmin.1, rfl⟩
      have hcost_min : ∀ y ∈ (satToGsPossibilities inp curr dst_gs).map Prod.fst, c ≤ y := by
        intro y hy
        rcases List.mem_map.mp hy with ⟨p, hp, hpy⟩
        rw [← hpy]
        exact pairLe_cost_le (hmin.2 p hp)
      exact (minQ_eq_some_of_min hcost_mem hcost_min).symm
  · intro c s hsel
    rw [show dist_satellite_to_ground_station inp curr dst_gs =
        (satToGsDecision inp curr dst_gs).1 from rfl]
    rw [satToGsDecision_some hsel]

/-! ### Claim C3 -/

/-- C3: the ground-station-to-ground-station entry is the drop sentinel iff
no satellite visible to the source ground station has a finite cached stage-1
distance to the destination; otherwise it is `(s, 0, access interface of s)`
where `s` is a visible satellite minimizing access distance + cached
distance. -/
theorem C3_gs_decision (inp : Input) (g1 g2 : ℕ) :
    (gsToGsDecision inp g1 g2 = dropEntry ↔
      ∀ a ∈ inp.groundStationSatellitesInRange g1,
        dist_satellite_to_ground_station inp a.2 g2 = none) ∧
    (∀ c s, (sortPairs (gsToGsPossibilities inp g1 g2)).head? = some (c, s) →
      gsToGsDecision inp g1 g2 = ((s : ℤ), 0, inp.numIslsPerSat s) ∧
      (c, s) ∈ gsToGsPossibilities inp g1 g2 ∧
      ∀ p ∈ gsToGsPossibilities inp g1 g2, c ≤ p.1) := by
  constructor
  · cases hsel : (sortPairs (gsToGsPossibilities inp g1 g2)).head? with
    | none =>
      have hP := sortPairs_head_none hsel
      rw [gsToGsDecision_none hsel]
      constructor
      · intro _
        exact gsToGsPossibilities_eq_nil_iff.mp hP
      · intro _; rfl
    | some cs =>
      obtain ⟨c, s⟩ := cs
      have hmin := sortPairs_head_min hsel
      rw [gsToGsDecision_some hsel]
      constructor
      · intro h
        exact absurd h natEntry_ne_drop
      · intro hall
        have hP := gsToGsPossibilities_eq_nil_iff.mpr hall
        rw [hP] at hmin
        cases hmin.1
  · intro c s hsel
    have hmin := sortPairs_head_min hsel
    refine ⟨gsToGsDecision_some hsel, hmin.1, ?_⟩
    intro p hp
    exact pairLe_cost_le (hmin.2 p hp)

/-- C3 witness: in the line scenario, ground station 0 reaches ground
station 1 through satellite 0 with total cost 12, and the entry names
satellite 0 with egress interface 0 and ingress interface 2. -/
theorem C3_witness :
    gsToGsDecision lineInp 0 1 = ((0 : ℤ), 0, 2) ∧
    (12, 0) ∈ gsToGsPossibilities lineInp 0 1 :=
  have h := (C3_gs_decision lineInp 0 1).2 12 0 (by with_unfolding_all decide)
  ⟨h.1, h.2.1⟩

/-- C2 witness: in the line scenario the cached distance from satellite 0 to
ground station 0 is 5 (direct access), matching the stage-1 selection. -/
theorem C2_witness :
    dist_satellite_to_ground_station lineInp 0 0 = some 5 :=
  (C2_cached_distance lineInp 0 0).2 5 0 (by with_unfolding_all decide)

/-! ### Claim C4 -/

/-- C4 counterexample: in `cexInput` the selected destination satellite for
(satellite 0, ground station 0) is satellite 1, distinct from 0, whose sole
backbone neighbor 1 minimizes `dist[0][n] + dist[n][1] = 10^15`; yet the
computed entry is the drop sentinel, not the entry for neighbor 1, because
the minimal sum is not strictly below the initial bound `10^15`. -/
theorem C4_counterexample :
    (selectedCandidate cexInput 0 0).map Prod.snd = some 1 ∧
    (0 : ℕ) ≠ 1 ∧
    cexInput.satNetGraphWithoutGs.neighbors 0 = [1] ∧
    (satToGsDecision cexInput 0 0).2 = dropEntry ∧
    dropEntry ≠ neighborEntry cexInput 0 1 := by
  with_unfolding_all decide

/-- C4 (amended): when the selected destination satellite `s` differs from
`curr`, the entry is the drop sentinel if no backbone neighbor of `curr` has
`dist[curr][n] + dist[n][s]` strictly below the initial bound `10^15`;
otherwise it is the entry of the first neighbor, in adjacency enumeration
order, attaining the minimal sum (strict less-than comparison, first
achiever wins ties), with the corresponding egress and ingress interfaces. -/
theorem C4_neighbor_choice (inp : Input) (curr dst_gs : ℕ) (c : ℚ) (s : ℕ)
    (hsel : selectedCandidate inp curr dst_gs = some (c, s)) (hne : curr ≠ s) :
    ((∀ n ∈ inp.satNetGraphWithoutGs.neighbors curr,
        eLt (neighborSum inp curr s n) (some bigDist) = false) ∧
      (satToGsDecision inp curr dst_gs).2 = dropEntry) ∨
    (∃ l1 n l2, inp.satNetGraphWithoutGs.neighbors curr = l1 ++ n :: l2 ∧
      eLt (neighborSum inp curr s n) (some bigDist) = true ∧
      (∀ m ∈ inp.satNetGraphWithoutGs.neighbors curr,
        eLt (neighborSum inp curr s m) (neighborSum inp curr s n) = false) ∧
      (∀ m ∈ l1, eLt (neighborSum inp curr s n) (neighborSum inp curr s m) = true) ∧
      (satToGsDecision inp curr dst_gs).2 = neighborEntry inp curr n) := by
  rw [satToGsDecision_some hsel]
  rw [if_neg hne]
  dsimp only
  rcases foldl_first_min (fun n => neighborSum inp curr s n) (neighborEntry inp curr)
    (inp.satNetGraphWithoutGs.neighbors curr) (some bigDist) dropEntry with
    ⟨hall, hres⟩ | ⟨l1, n, l2, hsplit, hlt, hmn, hfirst, hres⟩
  · have hhop : neighborHopState inp curr s = (some bigDist, dropEntry) := hres
    rw [hhop]
    exact Or.inl ⟨hall, rfl⟩
  · have hhop : neighborHopState inp curr s =
        (neighborSum inp curr s n, neighborEntry inp curr n) := hres
    rw [hhop]
    exact Or.inr ⟨l1, n, l2, hsplit, hlt, hmn, hfirst, rfl⟩

/-- C4 witness: in the line scenario, satellite 2 reaches ground station 0
via the selected satellite 0 ≠ 2, and the first (only) neighbor 1 attains
the minimal sum, well below `10^15`. -/
theorem C4_witness :
    ((∀ n ∈ lineInp.satNetGraphWithoutGs.neighbors 2,
        eLt (neighborSum lineInp 2 0 n) (some bigDist) = false) ∧
      (satToGsDecision lineInp 2 0).2 = dropEntry) ∨
    (∃ l1 n l2, lineInp.satNetGraphWithoutGs.neighbors 2 = l1 ++ n :: l2 ∧
      eLt (neighborSum lineInp 2 0 n) (some bigDist) = true ∧
      (∀ m ∈ lineInp.satNetGraphWithoutGs.neighbors 2,
        eLt (neighborSum lineInp 2 0 m) (neighborSum lineInp 2 0 n) = false) ∧
      (∀ m ∈ l1, eLt (neighborSum lineInp 2 0 n) (neighborSum lineInp 2 0 m) = true) ∧
      (satToGsDecision lineInp 2 0).2 = neighborEntry lineInp 2 n) :=
  C4_neighbor_choice lineInp 2 0 7 0 (by with_unfolding_all decide) (by decide)

/-! ### Claim C5 -/

/-- C5 counterexample: in `cex5Input` the candidate list for (satellite 0,
ground station 0) is [(6, 2), (6, 1)] in visibility-scan order: a cost tie.
Scanning order would select satellite 2 (encountered first), but the code
sorts the candidates and selects satellite 1 (smaller id). -/
theorem C5_counterexample :
    satToGsPossibilities cex5Input 0 0 = [(6, 2), (6, 1)] ∧
    selectedCandidateByScanOrder cex5Input 0 0 = some (6, 2) ∧
    selectedCandidate cex5Input 0 0 = some (6, 1) ∧
    selectedCandidate cex5Input 0 0 ≠ selectedCandidateByScanOrder cex5Input 0 0 := by
  with_unfolding_all decide

/-- C5 (amended): among candidates tying for the minimum total cost, the code
selects the one with the smallest satellite id: the selected candidate is the
lexicographic minimum of the candidate list under (cost, satellite id). -/
theorem C5_tie_break (inp : Input) (curr dst_gs : ℕ) (c : ℚ) (s : ℕ)
    (hsel : selectedCandidate inp curr dst_gs = some (c, s)) :
    (c, s) ∈ satToGsPossibilities inp curr dst_gs ∧
    ∀ p ∈ satToGsPossibilities inp curr dst_gs, c < p.1 ∨ (c = p.1 ∧ s ≤ p.2) := by
  have hmin := sortPairs_head_min hsel
  refine ⟨hmin.1, ?_⟩
  intro p hp
  exact pairLe_iff.mp (hmin.2 p hp)

/-- C5 witness: at the tie of `cex5Input`, the selected candidate (6, 1) is
in the candidate list and is lexicographically minimal. -/
theorem C5_witness :
    (6, 1) ∈ satToGsPossibilities cex5Input 0 0 ∧
    ∀ p ∈ satToGsPossibilities cex5Input 0 0,
      (6 : ℚ) < p.1 ∨ ((6 : ℚ) = p.1 ∧ 1 ≤ p.2) :=
  C5_tie_break cex5Input 0 0 6 1 (by with_unfolding_all decide)

/-! ### Claim C6 -/

theorem emitList_ok_decision {prev : Option FState} :
    ∀ {l em : FState}, emitList prev l = .ok em →
      ∀ (k : ℕ × ℕ) (v : Entry), (k, v) ∈ l → ∃ b, emitDecision prev k v = .ok b
  | [], _, _, k, v, hmem => by cases hmem
  | (k1, v1) :: rest, em, h, k, v, hmem => by
    have hstep : emitList prev ((k1, v1) :: rest) =
        (match emitDecision prev k1 v1 with
         | .error e => .error e
         | .ok b =>
           match emitList prev rest with
           | .error e => .error e
           | .ok tail => .ok (if b then (k1, v1) :: tail else tail)) := rfl
    rw [hstep] at h
    cases hd : emitDecision prev k1 v1 with
    | error e => rw [hd] at h; cases h
    | ok b =>
      rw [hd] at h
      cases ht : emitList prev rest with
      | error e => rw [ht] at h; cases h
      | ok tail =>
        rcases List.mem_cons.mp hmem with heq | hmem2
        · injection heq with h1 h2
          subst h1; subst h2
          exact ⟨b, hd⟩
        · exact emitList_ok_decision ht k v hmem2

/-- C6: a computed entry is written to the emitted record iff there is no
previous value at its key (no previous table, an empty previous table, or a
differing previous value); the returned state always contains the complete
table of computed pairs. -/
theorem C6_diff_emission (inp : Input) (out : EpochOutput) (k : ℕ × ℕ) (v : Entry)
    (hrun : algorithm_free_one_only_over_isls inp = .ok out)
    (hmem : (k, v) ∈ computedPairs inp) :
    (k, v) ∈ out.fstate ∧
    ((k, v) ∈ out.emitted ↔ (inp.prevOutput.bind fun p => flookup p k) ≠ some v) := by
  rcases run_ok_iff.mp hrun with ⟨hval1, hval2, hfst, hemit⟩
  constructor
  · rw [hfst]; exact hmem
  · rw [emitList_mem_iff hemit k v]
    rcases emitList_ok_decision hemit k v hmem with ⟨b, hb⟩
    cases hprev : inp.prevOutput with
    | none =>
      constructor
      · intro _ hc
        cases hc
      · intro _
        exact ⟨hmem, rfl⟩
    | some p =>
      show (k, v) ∈ computedPairs inp ∧ emitDecision (some p) k v = .ok true ↔
        flookup p k ≠ some v
      by_cases hp : p = []
      · subst hp
        constructor
        · intro _ hc
          cases hc
        · intro _
          exact ⟨hmem, rfl⟩
      · rw [hprev] at hb
        cases hf : flookup p k with
        | none =>
          have hberr : emitDecision (some p) k v = .error (.keyError k) := by
            rw [show emitDecision (some p) k v =
                (if p = [] then .ok true
                 else match flookup p k with
                   | none => .error (.keyError k)
                   | some v2 => .ok (decide (v2 ≠ v))) from rfl]
            rw [if_neg hp, hf]
          rw [hberr] at hb
          cases hb
        | some v2 =>
          rw [emitDecision_found hp hf]
          constructor
          · rintro ⟨_, hok⟩ hc
            injection hok with h2
            injection hc with hcc
            exact (of_decide_eq_true h2) hcc
          · intro hns
            refine ⟨hmem, ?_⟩
            have hne : v2 ≠ v := fun hc => hns (congrArg some hc)
            rw [decide_eq_true hne]

/-- C6 witness: in the first epoch of the line scenario (no previous table)
the entry for (satellite 0, ground station node 3) is retained in the state
and emitted. -/
theorem C6_witness :
    ((0, 3), ((3 : ℤ), 2, 0)) ∈ lineOut.fstate ∧
    (((0, 3), ((3 : ℤ), 2, 0)) ∈ lineOut.emitted ↔
      (lineInp.prevOutput.bind fun p => flookup p (0, 3)) ≠ some ((3 : ℤ), 2, 0)) :=
  C6_diff_emission lineInp lineOut (0, 3) ((3 : ℤ), 2, 0)
    (by with_unfolding_all decide) (by with_unfolding_all decide)

/-! ### Claim C7 -/

/-- C7: running the epoch computation again with identical inputs and the
table returned by the first run as the previous state succeeds and emits no
changed entries, returning the same table. -/
theorem C7_idempotent (inp : Input) (out1 : EpochOutput)
    (hrun : algorithm_free_one_only_over_isls inp = .ok out1) :
    algorithm_free_one_only_over_isls (setPrev inp (some out1.fstate)) =
      .ok ⟨out1.fstate, []⟩ := by
  rcases run_ok_iff.mp hrun with ⟨hval1, hval2, hfst, _⟩
  apply run_ok_iff.mpr
  refine ⟨hval1, hval2, hfst, ?_⟩
  show emitList (some out1.fstate) (computedPairs inp) = .ok []
  rw [hfst]
  cases hP : computedPairs inp with
  | nil => rfl
  | cons hd tl =>
    rw [← hP]
    apply emitList_no_change
    · rw [hP]
      intro hc
      cases hc
    · intro k v hm
      exact flookup_eq_some_of_mem (nodup_computedKeys inp) hm

/-- C7 witness: the line scenario rerun with its own output as previous
state emits nothing. -/
theorem C7_witness :
    algorithm_free_one_only_over_isls (setPrev lineInp (some lineOut.fstate)) =
      .ok ⟨lineOut.fstate, []⟩ :=
  C7_idempotent lineInp lineOut (by with_unfolding_all decide)

/-! ### Claim C8 -/

/-- C8: the epoch computation fails with the topology error iff the backbone
node count differs from the satellite count or some edge incident to a
satellite touches a node id that is not a satellite id; and when that
condition holds nothing is computed: no ok output exists. -/
theorem C8_topology_validation (inp : Input) :
    (algorithm_free_one_only_over_isls inp = .error .topologyError ↔
      inp.satNetGraphWithoutGs.numNodes ≠ inp.numSats ∨
      ∃ e ∈ inp.satNetGraphWithoutGs.edges,
        (e.1 < inp.numSats ∧ inp.numSats ≤ e.2.1) ∨
        (e.2.1 < inp.numSats ∧ inp.numSats ≤ e.1)) ∧
    (∀ out, algorithm_free_one_only_over_isls inp = .error .topologyError →
      algorithm_free_one_only_over_isls inp ≠ .ok out) := by
  refine ⟨run_error_topology_iff, ?_⟩
  intro out herr hok
  rw [herr] at hok
  cases hok

/-! ### Claim C9 -/

/-- C9: the key set of the returned table is exactly the satellite-to-ground
pairs plus the ordered distinct ground-station pairs: the keys are distinct,
a key is present iff it is of one of those two shapes, the count is
S*G + G*(G-1), and every emitted key is a table key (so no self pair and no
satellite-satellite pair is ever present or emitted). -/
theorem C9_key_set (inp : Input) (out : EpochOutput)
    (hrun : algorithm_free_one_only_over_isls inp = .ok out) :
    (out.fstate.map Prod.fst).Nodup ∧
    (∀ k : ℕ × ℕ, k ∈ out.fstate.map Prod.fst ↔
      ((k.1 < inp.numSats ∧ inp.numSats ≤ k.2 ∧
        k.2 < inp.numSats + inp.numGroundStations) ∨
       (inp.numSats ≤ k.1 ∧ k.1 < inp.numSats + inp.numGroundStations ∧
        inp.numSats ≤ k.2 ∧ k.2 < inp.numSats + inp.numGroundStations ∧
        k.1 ≠ k.2))) ∧
    (out.fstate.map Prod.fst).length =
      inp.numSats * inp.numGroundStations +
      inp.numGroundStations * (inp.numGroundStations - 1) ∧
    (∀ k ∈ out.emitted.map Prod.fst, k ∈ out.fstate.map Prod.fst) := by
  rcases run_ok_iff.mp hrun with ⟨hval1, hval2, hfst, hemit⟩
  rw [hfst, map_fst_computedPairs]
  refine ⟨?_, ?_, ?_, ?_⟩
  · rw [← map_fst_computedPairs]
    exact nodup_computedKeys inp
  · intro k
    rw [List.mem_append, mem_satGsKeys, mem_gsGsKeys]
  · rw [List.length_append, length_satGsKeys, length_gsGsKeys]
  · intro k hk
    rcases List.mem_map.mp hk with ⟨kv, hkv, hkfst⟩
    obtain ⟨k2, v2⟩ := kv
    have hin := (emitList_mem_iff hemit k2 v2).mp hkv
    rw [← map_fst_computedPairs]
    exact List.mem_map.mpr ⟨(k2, v2), hin.1, hkfst⟩

/-- C9 witness: the line scenario table has the predicted 3*2 + 2*1 = 8
keys. -/
theorem C9_witness :
    (lineOut.fstate.map Prod.fst).length = 3 * 2 + 2 * (2 - 1) :=
  (C9_key_set lineInp lineOut (by with_unfolding_all decide)).2.2.1

/-! ### Claim C10 -/

/-- C10: with a valid topology and a non-empty previous table that lacks the
key of some computed pair, the epoch computation fails with a key error at a
missing computed key instead of emitting that entry. -/
theorem C10_missing_prev_key (inp : Input) (p : FState) (k : ℕ × ℕ)
    (hprev : inp.prevOutput = some p) (hne : p ≠ [])
    (hval1 : inp.satNetGraphWithoutGs.numNodes = inp.numSats)
    (hval2 : ((List.range inp.numSats).any fun sid =>
      (inp.satNetGraphWithoutGs.neighbors sid).any fun n =>
        decide (inp.numSats ≤ n)) = false)
    (hk : k ∈ (computedPairs inp).map Prod.fst)
    (hmiss : flookup p k = none) :
    ∃ k0, algorithm_free_one_only_over_isls inp = .error (.keyError k0) ∧
      k0 ∈ (computedPairs inp).map Prod.fst ∧ flookup p k0 = none := by
  rcases emitList_error_of_missing hne k hk hmiss with ⟨e, he⟩
  have hprev2 : emitList inp.prevOutput (computedPairs inp) = .error e := by
    rw [hprev]; exact he
  rcases emitList_error_spec hprev2 with ⟨p2, k0, hp2, _, hkey, hk0mem, hk0miss⟩
  have hpp : p2 = p := by
    rw [hprev] at hp2
    injection hp2 with h1
    rw [h1]
  subst hpp
  refine ⟨k0, ?_, hk0mem, hk0miss⟩
  unfold algorithm_free_one_only_over_isls
  rw [if_neg (by rw [hval1]; intro hc; exact hc rfl)]
  rw [if_neg (by rw [hval2]; intro hc; cases hc)]
  rw [hprev2, hkey]

/-- C10 witness: the line scenario with previous state containing only the
key (0, 3) fails with a key error at a missing computed key. -/
theorem C10_witness :
    ∃ k0, algorithm_free_one_only_over_isls inp10 = .error (.keyError k0) ∧
      k0 ∈ (computedPairs inp10).map Prod.fst ∧
      flookup [((0, 3), ((3 : ℤ), 2, 0))] k0 = none :=
  C10_missing_prev_key inp10 [((0, 3), ((3 : ℤ), 2, 0))] (0, 4) rfl
    (by decide) rfl (by with_unfolding_all decide)
    (by with_unfolding_all decide) (by with_unfolding_all decide)

/-- Input whose graph node count (3) does not match its satellite count (2). -/
def badInput : Input := ⟨2, 1, ⟨3, []⟩, fun _ => [], fun _ => 0, fun _ _ => 0, none⟩

/-- C8 witness: a node-count mismatch makes the epoch computation fail with
the topology error. -/
theorem C8_witness :
    algorithm_free_one_only_over_isls badInput = .error .topologyError :=
  ((C8_topology_validation badInput).1).mpr (Or.inl (by decide))
